import Mathlib

/-!
Shallow embedding of `tensorpack/dataflow/imgaug/transform.py`.

A Python `Transform` exposes capabilities named `apply_<modality>`
(`apply_image`, `apply_coords`, possibly others).  Looking a capability up
on a transform either yields a callable or fails (`AttributeError` from
`__getattr__`, or a `NotImplementedError`-raising stub on the base class);
we model a transform over a value type `α` as a map from capability names
to `Option (α → α)`, `none` meaning the lookup or call fails.

Machine details of the embedding:
* coordinates are pairs of rationals (the Python code works on float
  arrays; we model the real arithmetic exactly),
* images are nested lists, either 2-D (no channel axis) or 3-D,
* the external `cv2` kernels (`resize`, `warpAffine`, `transpose`) are
  parameters of the corresponding `apply_image` embeddings: the code under
  verification only chooses their arguments and post-processes the result,
* the in-place effects of a method call inside `TransformList._apply` are
  rendered as explicit state: the list of indices of children whose
  capability was actually invoked.
-/

/-- Capability dispatch test used by `TransformList.__getattr__` and
`NoOpTransform.__getattr__`: the attribute name starts with `"apply_"`.
Stated on the character list so that it evaluates by kernel reduction. -/
def isCapabilityName (name : String) : Bool :=
  List.isPrefixOf "apply_".data name.data

/-- A deterministic transform over values of type `α`: for each capability
name, either the operation it implements, or `none` when looking up /
calling that capability fails. -/
structure Transform (α : Type) where
  caps : String → Option (α → α)

instance : Inhabited (Transform α) :=
  ⟨⟨fun _ => none⟩⟩

/-- Loop body of `TransformList._apply`: `for t in tfms: x = getattr(t, meth)(x)`.
`i` is the index of the head child, `log` accumulates (in reverse) the
indices of children whose capability was already invoked — the explicit
rendering of the in-place effects those calls may have.  The result pairs
the invocation log with either the threaded value or the index of the
first child on which the lookup/call failed. -/
def listApplyAux (name : String) :
    List (Transform α) → Nat → α → List Nat → List Nat × Except Nat α
  | [], _, x, log => (log.reverse, Except.ok x)
  | t :: ts, i, x, log =>
    match t.caps name with
    | none => (log.reverse, Except.error i)
    | some f => listApplyAux name ts (i + 1) (f x) (i :: log)

/-- `TransformList._apply(x, meth)`: thread `x` through the children in
sequence order, recording which children were invoked. -/
def TransformList.listApply (name : String) (tfms : List (Transform α)) (x : α) :
    List Nat × Except Nat α :=
  listApplyAux name tfms 0 x []

/-- Attribute lookup on a `TransformList`: `apply_image` and `apply_coords`
are explicit methods delegating to `_apply`, and `__getattr__` serves any
other name starting with `"apply_"` as `lambda x: self._apply(x, name)`;
all other names fail (`AttributeError`). -/
def TransformList.getCapability (tfms : List (Transform α)) (name : String) :
    Option (α → List Nat × Except Nat α) :=
  if isCapabilityName name then some (TransformList.listApply name tfms) else none

/-- Manual in-order application, written from the spec's words ("applying
C1 then C2 … then Cn manually"): call child 0's capability on the value,
feed the result to child 1's capability, and so on; fail as soon as one
child does not support the capability.  This is the reference definition a
composite is compared against. -/
def manualChain (name : String) : List (Transform α) → α → Option α
  | [], x => some x
  | t :: ts, x =>
    match t.caps name with
    | none => none
    | some f => manualChain name ts (f x)

/-- Forget the failure index of a `TransformList` outcome, keeping only
success values, for comparison with `manualChain`. -/
def exceptValue : Except Nat α → Option α
  | Except.ok a => some a
  | Except.error _ => none

/-- `NoOpTransform`: `apply_image` and `apply_coords` return their argument,
and `__getattr__` serves every other `apply_*` name as `lambda x: x`;
non-capability names fail. -/
def NoOpTransform (α : Type) : Transform α :=
  ⟨fun name => if isCapabilityName name then some (fun x => x) else none⟩

/-- An image buffer: a 2-D pixel grid, or a 3-D grid with a channel axis.
`numpy` arrays are rectangular; the embedding carries the nested lists and
reads the shape off them. -/
inductive Image (π : Type) where
  | im2 (data : List (List π))
  | im3 (data : List (List (List π)))

/-- Number of axes (`img.ndim`). -/
def Image.ndim : Image π → Nat
  | .im2 _ => 2
  | .im3 _ => 3

/-- First two components of `img.shape`: (rows, columns). -/
def Image.shape2 : Image π → Nat × Nat
  | .im2 d => (d.length, (d.headD []).length)
  | .im3 d => (d.length, (d.headD []).length)

/-- Number of rows of the buffer (`img.shape[0]`). -/
def Image.rowCount : Image π → Nat
  | .im2 d => d.length
  | .im3 d => d.length

/-- `ret[:, :, np.newaxis]` on a 2-D result: wrap every pixel into a
singleton channel. -/
def Image.addChannelAxis : Image π → Image π
  | .im2 d => .im3 (d.map fun row => row.map fun v => [v])
  | .im3 d => .im3 d

/-- Post-processing shared by `ResizeTransform.apply_image`,
`WarpAffineTransform.apply_image` and `TransposeTransform.apply_image`:
`if img.ndim == 3 and ret.ndim == 2: ret = ret[:, :, np.newaxis]`. -/
def restoreChannelAxis (img ret : Image π) : Image π :=
  if img.ndim = 3 ∧ ret.ndim = 2 then ret.addChannelAxis else ret

/-- `ResizeTransform(h, w, new_h, new_w, interp)`: `_init(locals())` stores
the constructor arguments as attributes.  `interp` is an opaque
interpolation-mode code. -/
structure ResizeTransform where
  h : Nat
  w : Nat
  new_h : Nat
  new_w : Nat
  interp : Nat

/-- Column assignment `coords[:, 0] = coords[:, 0] * r`. -/
def scaleCol0 (r : ℚ) (coords : List (ℚ × ℚ)) : List (ℚ × ℚ) :=
  coords.map fun p => (p.1 * r, p.2)

/-- Column assignment `coords[:, 1] = coords[:, 1] * r`. -/
def scaleCol1 (r : ℚ) (coords : List (ℚ × ℚ)) : List (ℚ × ℚ) :=
  coords.map fun p => (p.1, p.2 * r)

/-- `ResizeTransform.apply_coords`: scale column 0 by `new_w * 1.0 / w`,
then column 1 by `new_h * 1.0 / h`. -/
def ResizeTransform.apply_coords (t : ResizeTransform) (coords : List (ℚ × ℚ)) :
    List (ℚ × ℚ) :=
  scaleCol1 ((t.new_h : ℚ) / (t.h : ℚ)) (scaleCol0 ((t.new_w : ℚ) / (t.w : ℚ)) coords)

/-- `ResizeTransform.apply_image`: `assert img.shape[:2] == (self.h, self.w)`
(a failed assertion is `none`), then call the external resize kernel —
`kernel img new_w new_h interp` stands for
`cv2.resize(img, (new_w, new_h), interpolation=interp)` — and restore a
dropped channel axis. -/
def ResizeTransform.apply_image (t : ResizeTransform)
    (kernel : Image π → Nat → Nat → Nat → Image π) (img : Image π) :
    Option (Image π) :=
  if img.shape2 = (t.h, t.w) then
    some (restoreChannelAxis img (kernel img t.new_w t.new_h t.interp))
  else
    none

/-- `CropTransform(y0, x0, h, w)`. -/
structure CropTransform where
  y0 : Nat
  x0 : Nat
  h : Nat
  w : Nat

/-- Python slice `xs[a:b]` for non-negative bounds: keep indices
`a, …, b-1`, silently clamping both bounds to the list's length. -/
def pySlice (a b : Nat) (xs : List β) : List β :=
  (xs.take b).drop a

/-- `CropTransform.apply_image`: `img[y0:y0+h, x0:x0+w]` — slice the row
axis, then slice every remaining row; a trailing channel axis is carried
through untouched. -/
def CropTransform.apply_image (t : CropTransform) : Image π → Image π
  | .im2 d => .im2 ((pySlice t.y0 (t.y0 + t.h) d).map (pySlice t.x0 (t.x0 + t.w)))
  | .im3 d => .im3 ((pySlice t.y0 (t.y0 + t.h) d).map (pySlice t.x0 (t.x0 + t.w)))

/-- A 2×3 affine matrix, row-major: row 0 is `(a00, a01, a02)`, row 1 is
`(a10, a11, a12)`. -/
structure Mat23 where
  a00 : ℚ
  a01 : ℚ
  a02 : ℚ
  a10 : ℚ
  a11 : ℚ
  a12 : ℚ

/-- Row 0 of a 2×3 matrix. -/
def Mat23.row0 (m : Mat23) : ℚ × ℚ × ℚ :=
  (m.a00, m.a01, m.a02)

/-- Row 1 of a 2×3 matrix. -/
def Mat23.row1 (m : Mat23) : ℚ × ℚ × ℚ :=
  (m.a10, m.a11, m.a12)

/-- The 2×3 identity matrix `[[1, 0, 0], [0, 1, 0]]`. -/
def idMat : Mat23 :=
  ⟨1, 0, 0, 0, 1, 0⟩

/-- Homogeneous augmentation `np.concatenate((p, [1]))` of one point. -/
def augment (p : ℚ × ℚ) : ℚ × ℚ × ℚ :=
  (p.1, p.2, 1)

/-- Dot product of 3-vectors. -/
def dot3 (u v : ℚ × ℚ × ℚ) : ℚ :=
  u.1 * v.1 + u.2.1 * v.2.1 + u.2.2 * v.2.2

/-- `WarpAffineTransform(mat, dsize, interp, borderMode, borderValue)`. -/
structure WarpAffineTransform where
  mat : Mat23
  dsize : Nat × Nat
  interp : Nat
  borderMode : Nat
  borderValue : ℚ

/-- `WarpAffineTransform.apply_coords`: augment every point to `[x, y, 1]`
and take `np.dot(coords, mat.T)` — component `j` of a result row is the
dot product of the augmented point with row `j` of the matrix. -/
def WarpAffineTransform.apply_coords (t : WarpAffineTransform)
    (coords : List (ℚ × ℚ)) : List (ℚ × ℚ) :=
  coords.map fun p => (dot3 (augment p) t.mat.row0, dot3 (augment p) t.mat.row1)

/-- `WarpAffineTransform.apply_image`: call the external warp kernel —
`kernel mat dsize interp borderMode borderValue img` stands for
`cv2.warpAffine(img, mat, dsize, flags=interp, borderMode=borderMode,
borderValue=borderValue)` — and restore a dropped channel axis. -/
def WarpAffineTransform.apply_image (t : WarpAffineTransform)
    (kernel : Mat23 → Nat × Nat → Nat → Nat → ℚ → Image π → Image π)
    (img : Image π) : Image π :=
  restoreChannelAxis img (kernel t.mat t.dsize t.interp t.borderMode t.borderValue img)

/-- `TransposeTransform.apply_image`: call the external transpose kernel
(`cv2.transpose`) and restore a dropped channel axis. -/
def TransposeTransform.apply_image (kernel : Image π → Image π) (img : Image π) :
    Image π :=
  restoreChannelAxis img (kernel img)

/-- Example child transform over `Nat` supporting only `apply_image`. -/
def exIncr : Transform Nat :=
  ⟨fun name => if name = "apply_image" then some (fun k => k + 1) else none⟩

/-- Example child transform over `Nat` supporting only `apply_image`. -/
def exDouble : Transform Nat :=
  ⟨fun name => if name = "apply_image" then some (fun k => 2 * k) else none⟩

/-- Example child transform over `Nat` supporting only `apply_mask`. -/
def exMask : Transform Nat :=
  ⟨fun name => if name = "apply_mask" then some (fun k => k + 1) else none⟩

/-- Example child transform over `Nat` supporting no capability at all. -/
def exNone : Transform Nat :=
  ⟨fun _ => none⟩

/-- Example stand-in for `cv2.resize` that returns a 2-D buffer. -/
def exResizeKernel : Image ℚ → Nat → Nat → Nat → Image ℚ :=
  fun _ _ _ _ => Image.im2 [[0]]

/-- Example stand-in for `cv2.warpAffine` that returns a 2-D buffer. -/
def exWarpKernel : Mat23 → Nat × Nat → Nat → Nat → ℚ → Image ℚ → Image ℚ :=
  fun _ _ _ _ _ _ => Image.im2 [[0]]

/-- Example stand-in for `cv2.transpose` that returns a 2-D buffer. -/
def exPlainKernel : Image ℚ → Image ℚ :=
  fun _ => Image.im2 [[0]]

/-- Helper: the success value of `_apply` does not depend on the index
counter or the invocation log, and agrees with manual chaining. -/
theorem listApplyAux_value (name : String) (ts : List (Transform α)) :
    ∀ (k : Nat) (x : α) (log : List Nat),
      exceptValue (listApplyAux name ts k x log).2 = manualChain name ts x := by
  induction ts with
  | nil =>
    intro k x log
    rfl
  | cons t ts ih =>
    intro k x log
    cases h : t.caps name with
    | none => simp [listApplyAux, manualChain, h, exceptValue]
    | some f => simp [listApplyAux, manualChain, h, ih (k + 1) (f x) (k :: log)]

/-- C1: for every composite built from children `C1..Cn` and every
capability name (`apply_image`, `apply_coords`, or any other `apply_*`
name), the composite exposes the capability, and applying it to a value
produces exactly what applying child 0's capability, then child 1's, …,
then child n-1's to the threaded value produces, in the order the children
were supplied. -/
theorem composite_applies_children_in_sequence_order
    (tfms : List (Transform α)) (name : String) (x : α)
    (hname : isCapabilityName name = true) :
    TransformList.getCapability tfms name = some (TransformList.listApply name tfms) ∧
    exceptValue (TransformList.listApply name tfms x).2 = manualChain name tfms x := by
  constructor
  · simp [TransformList.getCapability, hname]
  · exact listApplyAux_value name tfms 0 x []

/-- Witness for C1 at a concrete composite of two children and the
capability `apply_image`. -/
theorem composite_applies_children_in_sequence_order_witness :
    (TransformList.getCapability [exIncr, exDouble] "apply_image" =
        some (TransformList.listApply "apply_image" [exIncr, exDouble]) ∧
      exceptValue (TransformList.listApply "apply_image" [exIncr, exDouble] 5).2 =
        manualChain "apply_image" [exIncr, exDouble] 5) ∧
    manualChain "apply_image" [exIncr, exDouble] 5 = some 12 :=
  ⟨composite_applies_children_in_sequence_order [exIncr, exDouble] "apply_image" 5
      (by decide),
    rfl⟩

/-- C3: the identity transform supports every `apply_*` capability
(`apply_image` and `apply_coords` included) and each one is the function
returning its argument itself, unchanged. -/
theorem noop_transform_identity_on_all_capabilities (α : Type) (name : String)
    (hname : isCapabilityName name = true) :
    (NoOpTransform α).caps name = some (fun x => x) := by
  simp [NoOpTransform, hname]

/-- Witness for C3 at the capabilities `apply_image`, `apply_coords` and a
further ad-hoc capability name. -/
theorem noop_transform_identity_on_all_capabilities_witness :
    (NoOpTransform ℕ).caps "apply_image" = some (fun x => x) ∧
    (NoOpTransform ℕ).caps "apply_coords" = some (fun x => x) ∧
    (NoOpTransform ℕ).caps "apply_mask" = some (fun x => x) :=
  ⟨noop_transform_identity_on_all_capabilities ℕ "apply_image" (by decide),
    noop_transform_identity_on_all_capabilities ℕ "apply_coords" (by decide),
    noop_transform_identity_on_all_capabilities ℕ "apply_mask" (by decide)⟩

/-- C5: `ResizeTransform.apply_image` fails (for every choice of the
external resize kernel) exactly when the input's first two dimensions
differ from the declared `(h, w)`; under the precondition that they are
equal, the failure branch is unreachable. -/
theorem resize_apply_image_shape_precondition {π : Type}
    (kernel : Image π → Nat → Nat → Nat → Image π)
    (t : ResizeTransform) (img : Image π) :
    t.apply_image kernel img = none ↔ img.shape2 ≠ (t.h, t.w) := by
  unfold ResizeTransform.apply_image
  split <;> simp_all

/-- C10: the composite built from the empty sequence of children is an
identity: it exposes every `apply_*` capability, and applying it to any
value returns that value unchanged (with no child invoked). -/
theorem empty_composite_identity (α : Type) (name : String) (x : α)
    (hname : isCapabilityName name = true) :
    TransformList.getCapability ([] : List (Transform α)) name =
      some (TransformList.listApply name []) ∧
    TransformList.listApply name ([] : List (Transform α)) x = ([], Except.ok x) := by
  constructor
  · simp [TransformList.getCapability, hname]
  · rfl

/-- Witness for C10 at the capability `apply_boxes` and the value `7`. -/
theorem empty_composite_identity_witness :
    TransformList.getCapability ([] : List (Transform ℕ)) "apply_boxes" =
      some (TransformList.listApply "apply_boxes" []) ∧
    TransformList.listApply "apply_boxes" ([] : List (Transform ℕ)) 7 =
      ([], Except.ok 7) :=
  empty_composite_identity ℕ "apply_boxes" 7 (by decide)

/-- C4: `ResizeTransform.apply_coords` maps each point `(x, y)` to
`(x * (new_w / w), y * (new_h / h))`, each axis scaled independently by an
exact (continuous, unquantized) ratio; in particular with
`h = w = 100`, `new_h = new_w = 50`, the point `(50, 50)` maps to
`(25, 25)` and `(0, 0)` maps to `(0, 0)`. -/
theorem resize_apply_coords_scales_axes_independently :
    (∀ (t : ResizeTransform) (coords : List (ℚ × ℚ)),
        t.apply_coords coords =
          coords.map fun p =>
            (p.1 * ((t.new_w : ℚ) / (t.w : ℚ)), p.2 * ((t.new_h : ℚ) / (t.h : ℚ)))) ∧
    (ResizeTransform.mk 100 100 50 50 1).apply_coords [(50, 50), (0, 0)] =
      [(25, 25), (0, 0)] := by
  constructor
  · intro t coords
    simp [ResizeTransform.apply_coords, scaleCol0, scaleCol1, List.map_map,
      Function.comp]
  · norm_num [ResizeTransform.apply_coords, scaleCol0, scaleCol1]

/-- C7: `WarpAffineTransform.apply_coords` sends each point `(x, y)` to
the product of the homogeneous vector `[x, y, 1]` with the transpose of
the 2×3 matrix, i.e. `(x·a00 + y·a01 + a02, x·a10 + y·a11 + a12)`; with
the 2×3 identity matrix every coordinate is unchanged in value. -/
theorem warp_apply_coords_homogeneous :
    (∀ (t : WarpAffineTransform) (coords : List (ℚ × ℚ)),
        t.apply_coords coords =
          coords.map fun p =>
            (p.1 * t.mat.a00 + p.2 * t.mat.a01 + t.mat.a02,
              p.1 * t.mat.a10 + p.2 * t.mat.a11 + t.mat.a12)) ∧
    (∀ (dsize : Nat × Nat) (interp borderMode : Nat) (borderValue : ℚ)
        (coords : List (ℚ × ℚ)),
        (WarpAffineTransform.mk idMat dsize interp borderMode
            borderValue).apply_coords coords = coords) := by
  constructor
  · intro t coords
    simp [WarpAffineTransform.apply_coords, dot3, augment, Mat23.row0, Mat23.row1]
  · intro dsize interp borderMode borderValue coords
    simp [WarpAffineTransform.apply_coords, dot3, augment, Mat23.row0, Mat23.row1,
      idMat]

/-- C8: scaling coordinates by `Resize(h, w, new_h, new_w)` and then by the
inverse `Resize(new_h, new_w, h, w)` (same interpolation mode) restores
every coordinate exactly, for positive dimensions, under the exact
rational arithmetic of the embedding. -/
theorem resize_roundtrip_restores_coords (h w nh nw i : Nat)
    (coords : List (ℚ × ℚ))
    (hh : 0 < h) (hw : 0 < w) (hnh : 0 < nh) (hnw : 0 < nw) :
    (ResizeTransform.mk nh nw h w i).apply_coords
      ((ResizeTransform.mk h w nh nw i).apply_coords coords) = coords := by
  induction coords with
  | nil => rfl
  | cons p ps ih =>
    simp only [ResizeTransform.apply_coords, scaleCol0, scaleCol1,
      List.map_cons] at ih ⊢
    refine congrArg₂ _ ?_ ?_
    · have hw0 : (w : ℚ) ≠ 0 := by positivity
      have hh0 : (h : ℚ) ≠ 0 := by positivity
      have hnw0 : (nw : ℚ) ≠ 0 := by positivity
      have hnh0 : (nh : ℚ) ≠ 0 := by positivity
      field_simp
    · exact ih

/-- Witness for C8 on the 100×100 → 50×50 resize and back, at the points
`(50, 50)` and `(0, 0)`. -/
theorem resize_roundtrip_restores_coords_witness :
    (ResizeTransform.mk 50 50 100 100 1).apply_coords
      ((ResizeTransform.mk 100 100 50 50 1).apply_coords [(50, 50), (0, 0)]) =
      [(50, 50), (0, 0)] :=
  resize_roundtrip_restores_coords 100 100 50 50 1 [(50, 50), (0, 0)]
    (by norm_num) (by norm_num) (by norm_num) (by norm_num)

/-- Helper: when child `i` is the first child (relative to the remaining
list) that does not support the capability, the `_apply` loop invokes
exactly the children before it and then stops with the failing child's
absolute index. -/
theorem listApplyAux_error (name : String) :
    ∀ (ts : List (Transform α)) (i k : Nat) (x : α) (log : List Nat),
      i < ts.length →
      ((ts.getD i default).caps name) = none →
      (∀ j, j < i → ((ts.getD j default).caps name).isSome = true) →
      listApplyAux name ts k x log =
        (log.reverse ++ (List.range i).map (fun m => m + k), Except.error (k + i)) := by
  intro ts
  induction ts with
  | nil =>
    intro i k x log hi
    exact absurd hi (Nat.not_lt_zero i)
  | cons t ts ih =>
    intro i k x log hi hnone hsupp
    cases i with
    | zero =>
      rw [List.getD_cons_zero] at hnone
      simp [listApplyAux, hnone]
    | succ i =>
      rw [List.getD_cons_succ] at hnone
      have h0 := hsupp 0 (Nat.succ_pos i)
      rw [List.getD_cons_zero] at h0
      obtain ⟨f, hf⟩ := Option.isSome_iff_exists.mp h0
      have hlen : i < ts.length := Nat.succ_lt_succ_iff.mp hi
      have hsupp2 : ∀ j, j < i → ((ts.getD j default).caps name).isSome = true := by
        intro j hj
        have hj2 := hsupp (j + 1) (Nat.succ_lt_succ hj)
        rwa [List.getD_cons_succ] at hj2
      have hrec := ih i (k + 1) (f x) (k :: log) hlen hnone hsupp2
      simp only [listApplyAux, hf]
      rw [hrec]
      simp only [Prod.mk.injEq]
      constructor
      · rw [List.reverse_cons, List.append_assoc]
        congr 1
        rw [List.range_succ_eq_map, List.map_cons, List.map_map]
        simp only [List.singleton_append, Nat.zero_add]
        have hfun : ((fun m => m + k) ∘ Nat.succ) = fun m => m + (k + 1) := by
          funext m
          simp only [Function.comp_apply]
          omega
        rw [hfun]
      · congr 1
        omega

/-- C2 counterexample: the composite `[exMask, exNone]` asked for
`apply_mask` does fail, but only after child 0's `apply_mask` has already
been invoked — the composite performs no up-front check that all children
support the capability, so capabilities are partially applied before the
unsupported child is reached, contrary to the claim. -/
theorem composite_no_precheck_counterexample :
    (TransformList.listApply "apply_mask" [exMask, exNone] 0).2 = Except.error 1 ∧
    (TransformList.listApply "apply_mask" [exMask, exNone] 0).1 ≠ [] := by
  constructor
  · rfl
  · decide

/-- C2 (amended): if child `i` is the first child not supporting the
requested capability, the composite call fails with a signal identifying
that child (its index), but only lazily: every child before `i` has
already had its capability applied to the threaded value by the time the
failure is raised — there is no up-front support check. -/
theorem composite_fails_at_first_unsupported_child
    (tfms : List (Transform α)) (name : String) (x : α) (i : Nat)
    (hi : i < tfms.length)
    (hnone : ((tfms.getD i default).caps name) = none)
    (hsupp : ∀ j, j < i → ((tfms.getD j default).caps name).isSome = true) :
    TransformList.listApply name tfms x = (List.range i, Except.error i) := by
  have hmain := listApplyAux_error name tfms i 0 x [] hi hnone hsupp
  simpa using hmain

/-- Witness for the amended C2 on the composite `[exMask, exNone]`: the
call fails at child 1 with child 0 already applied. -/
theorem composite_fails_at_first_unsupported_child_witness :
    TransformList.listApply "apply_mask" [exMask, exNone] 0 =
      (List.range 1, Except.error 1) :=
  composite_fails_at_first_unsupported_child [exMask, exNone] "apply_mask" 0 1
    (by decide) rfl (by decide)

/-- Helper: length of a Python slice — both bounds clamp to the list's
length. -/
theorem pySlice_length (a b : Nat) (xs : List β) :
    (pySlice a b xs).length = min b xs.length - a := by
  simp [pySlice]

/-- C6 counterexample: the crop `[0:5, 0:5]` of a 2×2 image silently
returns the truncated (clamped) 2×2 region — no error of any kind is
surfaced, and the result does not have the requested 5×5 shape, contrary
to the claim that the out-of-bounds condition is raised as an error. -/
theorem crop_out_of_bounds_silent_truncation_counterexample :
    CropTransform.apply_image ⟨0, 0, 5, 5⟩ (Image.im2 [[(1 : ℚ), 2], [3, 4]]) =
      Image.im2 [[1, 2], [3, 4]] ∧
    Image.shape2
        (CropTransform.apply_image ⟨0, 0, 5, 5⟩
          (Image.im2 [[(1 : ℚ), 2], [3, 4]])) ≠ (5, 5) := by
  constructor
  · rfl
  · decide

/-- C6 (amended): `CropTransform.apply_image` is total and silently clamps:
the result has `min (y0 + h) rows - y0` rows (each row clamped likewise on
columns), so an out-of-bounds request yields the truncated region with no
error, and an in-bounds request yields exactly `h` rows. -/
theorem crop_apply_image_clamps_silently {π : Type} (t : CropTransform)
    (d : List (List π)) :
    Image.rowCount (t.apply_image (Image.im2 d)) = min (t.y0 + t.h) d.length - t.y0 ∧
    (∀ row : List π,
        (pySlice t.x0 (t.x0 + t.w) row).length = min (t.x0 + t.w) row.length - t.x0) ∧
    (t.y0 + t.h ≤ d.length → Image.rowCount (t.apply_image (Image.im2 d)) = t.h) := by
  have hrows : Image.rowCount (t.apply_image (Image.im2 d)) =
      min (t.y0 + t.h) d.length - t.y0 := by
    simp [CropTransform.apply_image, Image.rowCount, pySlice]
  refine ⟨hrows, fun row => pySlice_length t.x0 (t.x0 + t.w) row, fun hle => ?_⟩
  rw [hrows]
  omega

/-- Witness for the amended C6 on a concrete 2×2 image with the partially
out-of-bounds crop `[1:4, 0:2]`. -/
theorem crop_apply_image_clamps_silently_witness :
    Image.rowCount (CropTransform.apply_image ⟨1, 0, 3, 2⟩
        (Image.im2 [[(1 : ℚ), 2], [3, 4]])) = min (1 + 3) 2 - 1 ∧
    (pySlice 0 (0 + 2) [(1 : ℚ), 2]).length = min (0 + 2) 2 - 0 :=
  ⟨(crop_apply_image_clamps_silently ⟨1, 0, 3, 2⟩ [[(1 : ℚ), 2], [3, 4]]).1,
    (crop_apply_image_clamps_silently ⟨1, 0, 3, 2⟩ [[(1 : ℚ), 2], [3, 4]]).2.1
      [(1 : ℚ), 2]⟩

/-- Helper: the channel-axis restoration step yields a 3-axis buffer
whenever the original input had one, whatever the kernel returned. -/
theorem restoreChannelAxis_ndim {π : Type} (img r : Image π) (himg : img.ndim = 3) :
    (restoreChannelAxis img r).ndim = 3 := by
  cases img with
  | im2 d => simp [Image.ndim] at himg
  | im3 d =>
    cases r with
    | im2 e => simp [restoreChannelAxis, Image.ndim, Image.addChannelAxis]
    | im3 e => simp [restoreChannelAxis, Image.ndim]

/-- C9: for Resize, Affine Warp and Transpose alike, and for every possible
behaviour of the external kernel (which may return a 2-D result, dropping
a singleton channel axis), a 3-axis input always yields a 3-axis output:
the wrapper restores the dropped singleton channel axis. -/
theorem apply_image_preserves_channel_axis :
    (∀ (π : Type) (kernel : Image π → Nat → Nat → Nat → Image π)
        (t : ResizeTransform) (img ret : Image π),
        t.apply_image kernel img = some ret → img.ndim = 3 → ret.ndim = 3) ∧
    (∀ (π : Type) (kernel : Mat23 → Nat × Nat → Nat → Nat → ℚ → Image π → Image π)
        (t : WarpAffineTransform) (img : Image π),
        img.ndim = 3 → (t.apply_image kernel img).ndim = 3) ∧
    (∀ (π : Type) (kernel : Image π → Image π) (img : Image π),
        img.ndim = 3 → (TransposeTransform.apply_image kernel img).ndim = 3) := by
  refine ⟨?_, ?_, ?_⟩
  · intro π kernel t img ret happ himg
    unfold ResizeTransform.apply_image at happ
    split at happ
    · injection happ with hret
      rw [← hret]
      exact restoreChannelAxis_ndim img _ himg
    · simp at happ
  · intro π kernel t img himg
    exact restoreChannelAxis_ndim img _ himg
  · intro π kernel img himg
    exact restoreChannelAxis_ndim img _ himg

/-- Witness for C9: each of the three wrappers, fed a 1×1×1 input and an
example kernel that returns a 2-D buffer, produces a 3-axis output. -/
theorem apply_image_preserves_channel_axis_witness :
    Image.ndim (Image.im3 [[[(0 : ℚ)]]]) = 3 ∧
    Image.ndim ((WarpAffineTransform.mk idMat (1, 1) 0 0 0).apply_image exWarpKernel
        (Image.im3 [[[(1 : ℚ)]]])) = 3 ∧
    Image.ndim (TransposeTransform.apply_image exPlainKernel
        (Image.im3 [[[(1 : ℚ)]]])) = 3 :=
  ⟨apply_image_preserves_channel_axis.1 ℚ exResizeKernel ⟨1, 1, 1, 1, 0⟩
      (Image.im3 [[[(1 : ℚ)]]]) (Image.im3 [[[(0 : ℚ)]]]) rfl rfl,
    apply_image_preserves_channel_axis.2.1 ℚ exWarpKernel
      (WarpAffineTransform.mk idMat (1, 1) 0 0 0) (Image.im3 [[[(1 : ℚ)]]]) rfl,
    apply_image_preserves_channel_axis.2.2 ℚ exPlainKernel
      (Image.im3 [[[(1 : ℚ)]]]) rfl⟩
